import Mathlib

/-!
Verification of the databend meta key-value layer against its specification.

Shallow embedding of:
- the key escaper and segment helpers of
  `src/meta/kvapi/src/kvapi/key.rs`;
- the MetaNode KVApi binding of
  `src/meta/service/src/meta_service/meta_node_kv_api_impl.rs`;
- the serialized group-by keys iterator of
  `src/query/service/src/pipelines/processors/transforms/group_by/aggregator_keys_iter.rs`.

Rust strings are modelled as lists of byte values (`List Nat`, each < 256)
where byte-level behaviour matters, and as Lean `String` where the code only
compares or copies whole strings. Rust panics (`unreachable!`, index out of
bounds) are modelled as distinguished outcomes, separate from returned errors.
-/

namespace Databend

/-- Safe bytes of the escaper: ASCII digits, letters and underscore; these are
exactly the match arms of `escape` in key.rs that copy the byte unchanged. -/
def isSafeByte (b : Nat) : Bool :=
  (48 ≤ b && b ≤ 57) || b == 95 || (97 ≤ b && b ≤ 122) || (65 ≤ b && b ≤ 90)

/-- The nested `hex` function of `escape`: `0..=9 => b'0' + num`,
`10..=15 => b'a' + (num - 10)`; the remaining branch is `unreachable!` in the
source (the argument is a nibble of a `u8`), and is never reached by any
theorem below, which all restrict bytes to `< 256`. -/
def hex (num : Nat) : Nat :=
  if num ≤ 9 then 48 + num else 97 + (num - 10)

/-- The `escape` function of key.rs, on byte strings: safe bytes are copied,
any other byte `b` becomes `'%'` (37) followed by `hex (b / 16)` and
`hex (b % 16)`. -/
def escape : List Nat → List Nat
  | [] => []
  | b :: rest =>
    (if isSafeByte b then [b] else [37, hex (b / 16), hex (b % 16)]) ++ escape rest

/-- The nested `unhex` function of `unescape`: decodes `'0'..='9'` and
`'a'..='f'`; any other byte hits the `unreachable!` branch of the source,
modelled as `none`. -/
def unhex (num : Nat) : Option Nat :=
  if 48 ≤ num ∧ num ≤ 57 then some (num - 48)
  else if 97 ≤ num ∧ num ≤ 102 then some (num - 97 + 10)
  else none

/-- Byte-level scanning loop of `unescape` in key.rs: a non-`'%'` byte is
copied; a `'%'` byte consumes the following two bytes through `unhex`.
`none` models a panic of the Rust code: either `unhex` hitting its
`unreachable!` branch, or the indexing `bytes[index + 1]` /
`bytes[index + 2]` falling out of bounds. -/
def unescapeBytes : List Nat → Option (List Nat)
  | [] => some []
  | b :: rest =>
    if b = 37 then
      match rest with
      | h1 :: h2 :: tail =>
        match unhex h1, unhex h2, unescapeBytes tail with
        | some a, some c, some r => some ((a * 16 + c) :: r)
        | _, _, _ => none
      | _ => none
    else
      match unescapeBytes rest with
      | some r => some (b :: r)
      | none => none

/-- States of the UTF-8 validation automaton: `start` between code points;
`tail1`/`tail2`/`tail3` expecting that many unconstrained continuation bytes;
`e0`, `ed`, `f0`, `f4` expecting the range-restricted second byte that rules
out overlong forms, surrogates and values above U+10FFFF. -/
inductive Utf8State where
  | start
  | tail1
  | tail2
  | tail3
  | e0
  | ed
  | f0
  | f4
deriving DecidableEq, Repr

/-- One byte of UTF-8 validation: `0x00..=0x7F` complete a code point;
`0xC2..=0xDF` open a 2-byte form; `0xE0..=0xEF` open a 3-byte form (with
second byte `0xA0..=0xBF` after `0xE0` and `0x80..=0x9F` after `0xED`);
`0xF0..=0xF4` open a 4-byte form (with second byte `0x90..=0xBF` after `0xF0`
and `0x80..=0x8F` after `0xF4`); continuation bytes are `0x80..=0xBF`;
everything else (`0x80..=0xC1` and `0xF5..` at a code point boundary, or a
non-continuation byte inside a form) is invalid. -/
def utf8Step : Utf8State → Nat → Option Utf8State
  | .start, b =>
    if b ≤ 127 then some .start
    else if 194 ≤ b ∧ b ≤ 223 then some .tail1
    else if b = 224 then some .e0
    else if b = 237 then some .ed
    else if 225 ≤ b ∧ b ≤ 239 then some .tail2
    else if b = 240 then some .f0
    else if 241 ≤ b ∧ b ≤ 243 then some .tail3
    else if b = 244 then some .f4
    else none
  | .tail1, b => if 128 ≤ b ∧ b ≤ 191 then some .start else none
  | .tail2, b => if 128 ≤ b ∧ b ≤ 191 then some .tail1 else none
  | .tail3, b => if 128 ≤ b ∧ b ≤ 191 then some .tail2 else none
  | .e0, b => if 160 ≤ b ∧ b ≤ 191 then some .tail1 else none
  | .ed, b => if 128 ≤ b ∧ b ≤ 159 then some .tail1 else none
  | .f0, b => if 144 ≤ b ∧ b ≤ 191 then some .tail2 else none
  | .f4, b => if 128 ≤ b ∧ b ≤ 143 then some .tail2 else none

/-- Run of the UTF-8 validation automaton over a byte sequence. -/
def utf8ValidAux : List Nat → Utf8State → Bool
  | [], st => st == Utf8State.start
  | b :: rest, st =>
    match utf8Step st b with
    | some st2 => utf8ValidAux rest st2
    | none => false

/-- Validity of a byte sequence as UTF-8, as checked by Rust
`String::from_utf8`. -/
def utf8Valid (s : List Nat) : Bool := utf8ValidAux s Utf8State.start

/-- Outcome of `unescape` other than success: either the Rust code panics
(`unreachable!` in `unhex`, or out-of-bounds indexing after a trailing `'%'`),
or it returns the `FromUtf8Error` of `String::from_utf8`. -/
inductive UnescapeError where
  | panic
  | fromUtf8
deriving DecidableEq, Repr

/-- The `unescape` function of key.rs: scan the bytes, then rebuild a string
via `String::from_utf8`. `Except.error .panic` marks inputs on which the Rust
code panics; `Except.error .fromUtf8` marks inputs whose decoded bytes are not
valid UTF-8 (the `FromUtf8Error` return). -/
def unescape (s : List Nat) : Except UnescapeError (List Nat) :=
  match unescapeBytes s with
  | none => Except.error UnescapeError.panic
  | some bs =>
    if utf8Valid bs then Except.ok bs else Except.error UnescapeError.fromUtf8

/-- A byte sequence is the byte encoding of a Rust `String` when every entry
is a byte value and the sequence is valid UTF-8. -/
def isString (s : List Nat) : Prop :=
  (∀ b ∈ s, b < 256) ∧ utf8Valid s = true

instance (s : List Nat) : Decidable (isString s) := by
  unfold isString; infer_instance

lemma unhex_hex {x : Nat} (hx : x < 16) : unhex (hex x) = some x := by
  unfold hex
  rcases Nat.lt_or_ge x 10 with h | h
  · rw [if_pos (by omega)]
    unfold unhex
    rw [if_pos (by omega)]
    congr 1
    omega
  · rw [if_neg (by omega)]
    unfold unhex
    rw [if_neg (by omega), if_pos (by omega)]
    congr 1
    omega

lemma safe_ne_percent {b : Nat} (h : isSafeByte b = true) : b ≠ 37 := by
  intro hb
  subst hb
  simp [isSafeByte] at h

/-- One-step unfolding of the scanning loop at a cons cell, stated without
nested list patterns so that it can be used on a symbolic tail. -/
lemma unescapeBytes_cons (b : Nat) (rest : List Nat) :
    unescapeBytes (b :: rest) =
      if b = 37 then
        match rest with
        | h1 :: h2 :: tail =>
          (match unhex h1, unhex h2, unescapeBytes tail with
           | some a, some c, some r => some ((a * 16 + c) :: r)
           | _, _, _ => none)
        | _ => none
      else
        match unescapeBytes rest with
        | some r => some (b :: r)
        | none => none := by
  rcases rest with _ | ⟨h1, _ | ⟨h2, tail⟩⟩ <;> simp [unescapeBytes]

/-- Scanning the escaped form of any byte string recovers the bytes. -/
lemma unescapeBytes_escape {s : List Nat} (hs : ∀ b ∈ s, b < 256) :
    unescapeBytes (escape s) = some s := by
  induction s with
  | nil => rfl
  | cons b rest ih =>
    have hb : b < 256 := hs b (List.mem_cons_self b rest)
    have hrest : ∀ x ∈ rest, x < 256 := fun x hx => hs x (List.mem_cons_of_mem b hx)
    have ih' := ih hrest
    by_cases hsafe : isSafeByte b = true
    · rw [escape, if_pos hsafe]
      have hne : b ≠ 37 := safe_ne_percent hsafe
      rw [List.singleton_append, unescapeBytes_cons, if_neg hne, ih']
    · rw [escape, if_neg hsafe]
      rw [List.cons_append, List.cons_append, List.cons_append, List.nil_append]
      rw [unescapeBytes_cons, if_pos rfl]
      have hdiv : b / 16 < 16 := by omega
      have hmod : b % 16 < 16 := by omega
      have hb16 : b / 16 * 16 + b % 16 = b := by omega
      simp only [unhex_hex hdiv, unhex_hex hmod, ih', hb16]

/-- C1: round-trip. For every Rust `String` `x` (a valid-UTF-8 byte
sequence), `unescape (escape x) = Ok x`. -/
theorem c1_unescape_escape_roundtrip (s : List Nat) (hs : isString s) :
    unescape (escape s) = Except.ok s := by
  rw [unescape, unescapeBytes_escape hs.1]
  simp [hs.2]

/-- Witness for C1 at the concrete input "my db!". -/
theorem c1_unescape_escape_roundtrip_witness :
    isString [109, 121, 32, 100, 98, 33] ∧
      unescape (escape [109, 121, 32, 100, 98, 33]) =
        Except.ok [109, 121, 32, 100, 98, 33] :=
  ⟨by decide, c1_unescape_escape_roundtrip [109, 121, 32, 100, 98, 33] (by decide)⟩

/-- Lowercase hexadecimal digit bytes: `'0'..='9'` and `'a'..='f'`, exactly
the bytes `unhex` accepts without panicking. -/
def isLowerHexDigit (b : Nat) : Bool :=
  (48 ≤ b && b ≤ 57) || (97 ≤ b && b ≤ 102)

/-- Well-formedness of an escaped string as scanned by `unescape`: every
`'%'` reached by the scan is followed by two lowercase hexadecimal digit
bytes. -/
def wellFormedEsc : List Nat → Bool
  | [] => true
  | b :: rest =>
    if b = 37 then
      match rest with
      | h1 :: h2 :: tail => isLowerHexDigit h1 && (isLowerHexDigit h2 && wellFormedEsc tail)
      | _ => false
    else wellFormedEsc rest

lemma wellFormedEsc_cons (b : Nat) (rest : List Nat) :
    wellFormedEsc (b :: rest) =
      if b = 37 then
        match rest with
        | h1 :: h2 :: tail => isLowerHexDigit h1 && (isLowerHexDigit h2 && wellFormedEsc tail)
        | _ => false
      else wellFormedEsc rest := by
  rcases rest with _ | ⟨h1, _ | ⟨h2, tail⟩⟩ <;> simp [wellFormedEsc]

lemma unhex_isSome (h : Nat) : (unhex h).isSome = isLowerHexDigit h := by
  unfold unhex isLowerHexDigit
  by_cases hA : 48 ≤ h ∧ h ≤ 57
  · rw [if_pos hA]
    simp [hA.1, hA.2]
  · rw [if_neg hA]
    by_cases hB : 97 ≤ h ∧ h ≤ 102
    · rw [if_pos hB]
      simp [hB.1, hB.2]
    · rw [if_neg hB]
      simp only [Option.isSome_none]
      symm
      simp only [Bool.or_eq_false_iff, Bool.and_eq_false_iff, decide_eq_false_iff_not]
      omega

/-- The scan succeeds exactly on well-formed escaped strings; on the rest it
hits a panic of the Rust code. -/
lemma unescapeBytes_isSome : (s : List Nat) → (unescapeBytes s).isSome = wellFormedEsc s
  | [] => rfl
  | b :: [] => by
    rw [unescapeBytes_cons, wellFormedEsc_cons]
    by_cases hb : b = 37
    · rw [if_pos hb, if_pos hb]
      rfl
    · rw [if_neg hb, if_neg hb]
      have h0 := unescapeBytes_isSome []
      cases hu : unescapeBytes ([] : List Nat) <;> rw [hu] at h0 <;> simp_all
  | b :: h1 :: [] => by
    rw [unescapeBytes_cons, wellFormedEsc_cons]
    by_cases hb : b = 37
    · rw [if_pos hb, if_pos hb]
      rfl
    · rw [if_neg hb, if_neg hb]
      have h0 := unescapeBytes_isSome [h1]
      cases hu : unescapeBytes [h1] <;> rw [hu] at h0 <;> simp_all
  | b :: h1 :: h2 :: tail => by
    rw [unescapeBytes_cons, wellFormedEsc_cons]
    by_cases hb : b = 37
    · rw [if_pos hb, if_pos hb]
      have e1 := unhex_isSome h1
      have e2 := unhex_isSome h2
      have e3 := unescapeBytes_isSome tail
      cases hu1 : unhex h1 <;> rw [hu1] at e1 <;>
        cases hu2 : unhex h2 <;> rw [hu2] at e2 <;>
          cases hu3 : unescapeBytes tail <;> rw [hu3] at e3 <;>
            simp_all
    · rw [if_neg hb, if_neg hb]
      have h0 := unescapeBytes_isSome (h1 :: h2 :: tail)
      cases hu : unescapeBytes (h1 :: h2 :: tail) <;> rw [hu] at h0 <;> simp_all

/-- C2 (amended): `unescape` panics exactly on the inputs in which the scan
reaches a `'%'` not followed by two lowercase hexadecimal digit bytes; on
every other input it returns a value (`Ok` or a UTF-8 decode error) without
panicking. -/
theorem c2_unescape_panic_iff (s : List Nat) :
    unescape s = Except.error UnescapeError.panic ↔ wellFormedEsc s = false := by
  have hcorr := unescapeBytes_isSome s
  unfold unescape
  cases hu : unescapeBytes s with
  | none =>
    rw [hu] at hcorr
    simp only [Option.isSome_none] at hcorr
    simp [← hcorr]
  | some bs =>
    rw [hu] at hcorr
    simp only [Option.isSome_some] at hcorr
    constructor
    · intro h
      by_cases hv : utf8Valid bs = true <;> simp [hv] at h
    · intro h
      rw [← hcorr] at h
      simp at h

/-- C2 (counterexample): on the one-byte input "%" the Rust `unescape`
panics (out-of-bounds indexing), instead of returning a decode error as the
claim states; `panic` is a distinct outcome from the `FromUtf8Error` decode
error. -/
theorem c2_percent_alone_panics :
    unescape [37] = Except.error UnescapeError.panic ∧
      UnescapeError.panic ≠ UnescapeError.fromUtf8 := by
  constructor
  · rfl
  · intro h
    cases h

/-- Specification-side encoding of one lowercase hexadecimal digit. -/
def lowerHexDigit (k : Nat) : Nat := if k < 10 then 48 + k else 87 + k

/-- Specification-side description of per-byte escaping: an ASCII digit,
letter or underscore is kept, any other byte becomes `'%'` followed by the
two lowercase hexadecimal digits of its value, high nibble first. -/
def escapeByteSpec (b : Nat) : List Nat :=
  if (48 ≤ b ∧ b ≤ 57) ∨ (65 ≤ b ∧ b ≤ 90) ∨ (97 ≤ b ∧ b ≤ 122) ∨ b = 95 then [b]
  else [37, lowerHexDigit (b / 16), lowerHexDigit (b % 16)]

lemma escapeByte_eq_spec {b : Nat} (hb : b < 256) :
    (if isSafeByte b then [b] else [37, hex (b / 16), hex (b % 16)]) =
      escapeByteSpec b := by
  unfold escapeByteSpec
  by_cases hc : (48 ≤ b ∧ b ≤ 57) ∨ (65 ≤ b ∧ b ≤ 90) ∨ (97 ≤ b ∧ b ≤ 122) ∨ b = 95
  · rw [if_pos hc, if_pos (by simp [isSafeByte]; omega)]
  · rw [if_neg hc, if_neg (by simp [isSafeByte]; omega)]
    have hdig : ∀ k : Nat, k < 16 → hex k = lowerHexDigit k := by
      intro k hk
      unfold hex lowerHexDigit
      rcases Nat.lt_or_ge k 10 with h | h
      · rw [if_pos (by omega), if_pos (by omega)]
      · rw [if_neg (by omega), if_neg (by omega)]
        omega
    rw [hdig _ (by omega), hdig _ (by omega)]

lemma escape_all_ascii {s : List Nat} (hs : ∀ b ∈ s, b < 256) :
    ∀ x ∈ escape s, x ≤ 127 := by
  induction s with
  | nil => intro x hx; cases hx
  | cons b rest ih =>
    have hrest : ∀ x ∈ rest, x < 256 := fun x hx => hs x (List.mem_cons_of_mem b hx)
    intro x hx
    rw [escape] at hx
    rcases List.mem_append.mp hx with hx | hx
    · by_cases hsafe : isSafeByte b = true
      · rw [if_pos hsafe] at hx
        have hxb : x = b := List.mem_singleton.mp hx
        subst hxb
        simp [isSafeByte] at hsafe
        omega
      · rw [if_neg hsafe] at hx
        have hhex : ∀ k : Nat, k < 16 → hex k ≤ 127 := by
          intro k hk
          unfold hex
          split <;> omega
        have hb : b < 256 := hs b (List.mem_cons_self b rest)
        simp only [List.mem_cons, List.not_mem_nil, or_false] at hx
        rcases hx with hx | hx | hx
        · omega
        · rw [hx]; exact hhex _ (by omega)
        · rw [hx]; exact hhex _ (by omega)
    · exact ih hrest x hx

lemma utf8Valid_cons_ascii {b : Nat} (hb : b ≤ 127) (l : List Nat) :
    utf8Valid (b :: l) = utf8Valid l := by
  unfold utf8Valid
  rw [utf8ValidAux]
  have hstep : utf8Step Utf8State.start b = some Utf8State.start := by
    rw [utf8Step, if_pos hb]
  rw [hstep]

lemma ascii_utf8Valid {l : List Nat} (hl : ∀ x ∈ l, x ≤ 127) :
    utf8Valid l = true := by
  induction l with
  | nil => rfl
  | cons b rest ih =>
    rw [utf8Valid_cons_ascii (hl b (List.mem_cons_self b rest))]
    exact ih fun x hx => hl x (List.mem_cons_of_mem b hx)

/-- C3: `escape` maps each safe byte to itself and every other byte to `'%'`
plus its two lowercase hexadecimal digits (high nibble first), never fails
(its output is always valid UTF-8, so the final `unwrap` succeeds), and sends
"my db!" to "my%20db%21". -/
theorem c3_escape_bytewise :
    (∀ s : List Nat, (∀ b ∈ s, b < 256) →
        escape s = s.flatMap escapeByteSpec ∧ utf8Valid (escape s) = true) ∧
      escape [109, 121, 32, 100, 98, 33] =
        [109, 121, 37, 50, 48, 100, 98, 37, 50, 49] := by
  constructor
  · intro s hs
    constructor
    · induction s with
      | nil => rfl
      | cons b rest ih =>
        have hb : b < 256 := hs b (List.mem_cons_self b rest)
        have hrest : ∀ x ∈ rest, x < 256 := fun x hx => hs x (List.mem_cons_of_mem b hx)
        rw [escape, List.flatMap_cons, escapeByte_eq_spec hb, ih hrest]
    · exact ascii_utf8Valid (escape_all_ascii hs)
  · rfl

/-- Witness for C3 at the concrete input "my db!". -/
theorem c3_escape_bytewise_witness :
    escape [109, 121, 32, 100, 98, 33] =
        [109, 121, 32, 100, 98, 33].flatMap escapeByteSpec ∧
      utf8Valid (escape [109, 121, 32, 100, 98, 33]) = true :=
  c3_escape_bytewise.1 [109, 121, 32, 100, 98, 33] (by decide)

/-- C4: `escape` is injective on byte strings. -/
theorem c4_escape_injective (s1 s2 : List Nat)
    (h1 : ∀ b ∈ s1, b < 256) (h2 : ∀ b ∈ s2, b < 256) (hne : s1 ≠ s2) :
    escape s1 ≠ escape s2 := by
  intro heq
  apply hne
  have hr1 := unescapeBytes_escape h1
  rw [heq, unescapeBytes_escape h2] at hr1
  exact (Option.some_injective _ hr1).symm

/-- Witness for C4 at the concrete inputs " " and "!". -/
theorem c4_escape_injective_witness : escape [32] ≠ escape [33] :=
  c4_escape_injective [32] [33] (by decide) (by decide) (by decide)

/-- The `KeyError` enum of key.rs. The `FromUtf8Error` payload of the first
variant is not needed by any claim and is omitted. -/
inductive KeyError where
  | fromUtf8Error
  | asciiError (non_ascii : String)
  | invalidSegment (i : Nat) (expect : String) (got : String)
  | wrongNumberOfSegments (expect : Nat) (got : String)
  | atleastSegments (expect : Nat) (actual : Nat)
  | invalidId (s : String) (reason : String)
deriving DecidableEq, Repr

/-- The `check_segment_absent` function of key.rs. -/
def check_segment_absent (elt : Option String) (i : Nat) (encoded : String) :
    Except KeyError Unit :=
  if elt.isSome then
    Except.error (KeyError.wrongNumberOfSegments i encoded)
  else
    Except.ok ()

/-- The `check_segment_present` function of key.rs. -/
def check_segment_present (elt : Option String) (i : Nat) (key : String) :
    Except KeyError String :=
  match elt with
  | some s => Except.ok s
  | none => Except.error (KeyError.wrongNumberOfSegments (i + 1) key)

/-- The `check_segment` function of key.rs. -/
def check_segment (elt : String) (i : Nat) (expect : String) :
    Except KeyError Unit :=
  if elt ≠ expect then
    Except.error (KeyError.invalidSegment i expect elt)
  else
    Except.ok ()

/-- C6: the three segment-check helpers return `Ok` exactly when their
condition holds, and otherwise the specified error with the specified
context: `check_segment_present` cites expected count `i + 1`,
`check_segment_absent` cites a wrong number of segments, and `check_segment`
cites the index, the expected text and the actual text. -/
theorem c6_segment_checks :
    (∀ (i : Nat) (encoded : String),
        check_segment_absent none i encoded = Except.ok ()) ∧
    (∀ (x : String) (i : Nat) (encoded : String),
        check_segment_absent (some x) i encoded =
          Except.error (KeyError.wrongNumberOfSegments i encoded)) ∧
    (∀ (x : String) (i : Nat) (key : String),
        check_segment_present (some x) i key = Except.ok x) ∧
    (∀ (i : Nat) (key : String),
        check_segment_present none i key =
          Except.error (KeyError.wrongNumberOfSegments (i + 1) key)) ∧
    (∀ (i : Nat) (e : String), check_segment e i e = Except.ok ()) ∧
    (∀ (elt e : String) (i : Nat), elt ≠ e →
        check_segment elt i e = Except.error (KeyError.invalidSegment i e elt)) := by
  refine ⟨fun i encoded => rfl, fun x i encoded => rfl, fun x i key => rfl,
    fun i key => rfl, fun i e => by simp [check_segment], fun elt e i hne => by
      simp [check_segment, hne]⟩

/-- Witness for C6: all six cases at concrete segments and indexes. -/
theorem c6_segment_checks_witness :
    check_segment_absent none 2 ("k") = Except.ok () ∧
      check_segment_absent (some ("x")) 2 ("k") =
        Except.error (KeyError.wrongNumberOfSegments 2 ("k")) ∧
      check_segment_present (some ("x")) 2 ("k") = Except.ok ("x") ∧
      check_segment_present none 2 ("k") =
        Except.error (KeyError.wrongNumberOfSegments 3 ("k")) ∧
      check_segment ("a") 0 ("a") = Except.ok () ∧
      check_segment ("a") 0 ("b") =
        Except.error (KeyError.invalidSegment 0 ("b") ("a")) :=
  ⟨c6_segment_checks.1 2 ("k"), c6_segment_checks.2.1 ("x") 2 ("k"),
    c6_segment_checks.2.2.1 ("x") 2 ("k"), c6_segment_checks.2.2.2.1 2 ("k"),
    c6_segment_checks.2.2.2.2.1 0 ("a"),
    c6_segment_checks.2.2.2.2.2 ("a") ("b") 0 (by decide)⟩

/-- First value not representable in a `u64`. -/
def U64_MOD : Nat := 18446744073709551616

/-- Display string of Rust `ParseIntError` for an empty input. -/
def emptyMsg : String := "cannot parse integer from empty string"

/-- Display string of Rust `ParseIntError` for a non-digit byte. -/
def invalidDigitMsg : String := "invalid digit found in string"

/-- Display string of Rust `ParseIntError` for positive overflow. -/
def posOverflowMsg : String := "number too large to fit in target type"

/-- The value of an ASCII decimal digit, `none` on any other character
(`to_digit(10)` in the Rust parsing loop). -/
def digitVal (c : Char) : Option Nat :=
  if 48 ≤ c.toNat ∧ c.toNat ≤ 57 then some (c.toNat - 48) else none

/-- Digit-accumulation loop of Rust `u64::from_str`: checked multiply by 10
and checked add of each digit, failing with `PosOverflow` as soon as the
accumulator would leave the `u64` range, and with `InvalidDigit` on a
non-digit character. -/
def parseU64Core : List Char → Nat → Except String Nat
  | [], acc => Except.ok acc
  | c :: rest, acc =>
    match digitVal c with
    | none => Except.error invalidDigitMsg
    | some d =>
      if acc * 10 + d < U64_MOD then parseU64Core rest (acc * 10 + d)
      else Except.error posOverflowMsg

/-- Rust `str::parse::<u64>`: an empty string fails with `Empty`; one
optional leading `'+'` sign is stripped (a `'-'` is not accepted for an
unsigned target); a sign with no digits fails with `InvalidDigit`; otherwise
the digit loop runs with accumulator 0. -/
def parseU64 (s : String) : Except String Nat :=
  match s.data with
  | [] => Except.error emptyMsg
  | c :: rest =>
    let ds := if c = '+' then rest else c :: rest
    if ds.isEmpty then Except.error invalidDigitMsg
    else parseU64Core ds 0

/-- The `decode_id` function of key.rs: parse the segment as `u64`, mapping
a parse failure to `KeyError::InvalidId` carrying the offending text and the
failure reason. -/
def decode_id (s : String) : Except KeyError Nat :=
  match parseU64 s with
  | Except.ok n => Except.ok n
  | Except.error e => Except.error (KeyError.invalidId s e)

/-- Value of a digit string, most significant digit first. -/
def digitsFoldFrom (a : Nat) (ds : List Char) : Nat :=
  ds.foldl (fun x c => x * 10 + (c.toNat - 48)) a

/-- Specification-side reading: `s` denotes the unsigned 64-bit integer `n`
when it is a non-empty string of ASCII decimal digits, optionally preceded by
one `'+'`, whose decimal value is `n`, and `n` fits in a `u64`. -/
def representsU64 (s : String) (n : Nat) : Prop :=
  n < U64_MOD ∧ ∃ ds : List Char, ds ≠ [] ∧
    (∀ c ∈ ds, 48 ≤ c.toNat ∧ c.toNat ≤ 57) ∧
    digitsFoldFrom 0 ds = n ∧ (s.data = ds ∨ s.data = '+' :: ds)

lemma digitsFoldFrom_le (ds : List Char) : ∀ a : Nat, a ≤ digitsFoldFrom a ds := by
  induction ds with
  | nil => intro a; exact Nat.le_refl a
  | cons c rest ih =>
    intro a
    have h1 : a ≤ a * 10 + (c.toNat - 48) := by omega
    exact h1.trans (ih (a * 10 + (c.toNat - 48)))

lemma parseU64Core_ok_iff {ds : List Char} {acc n : Nat} (hacc : acc < U64_MOD) :
    parseU64Core ds acc = Except.ok n ↔
      ((∀ c ∈ ds, 48 ≤ c.toNat ∧ c.toNat ≤ 57) ∧
        digitsFoldFrom acc ds = n ∧ n < U64_MOD) := by
  induction ds generalizing acc with
  | nil =>
    simp only [parseU64Core, digitsFoldFrom, List.foldl_nil]
    constructor
    · intro h
      have hn : acc = n := by injection h
      subst hn
      exact ⟨fun c hc => absurd hc (List.not_mem_nil c), rfl, hacc⟩
    · intro h
      rw [h.2.1]
  | cons c rest ih =>
    rw [parseU64Core]
    by_cases hd : 48 ≤ c.toNat ∧ c.toNat ≤ 57
    · rw [show digitVal c = some (c.toNat - 48) from by rw [digitVal, if_pos hd]]
      dsimp only
      by_cases hov : acc * 10 + (c.toNat - 48) < U64_MOD
      · rw [if_pos hov, ih hov]
        constructor
        · rintro ⟨hdig, hfold, hlt⟩
          refine ⟨fun x hx => ?_, hfold, hlt⟩
          rcases List.mem_cons.mp hx with hx | hx
          · rw [hx]; exact hd
          · exact hdig x hx
        · rintro ⟨hdig, hfold, hlt⟩
          exact ⟨fun x hx => hdig x (List.mem_cons_of_mem c hx), hfold, hlt⟩
      · rw [if_neg hov]
        constructor
        · intro h; cases h
        · rintro ⟨hdig, hfold, hlt⟩
          exfalso
          have hmono := digitsFoldFrom_le rest (acc * 10 + (c.toNat - 48))
          have hfold' : digitsFoldFrom acc (c :: rest) =
              digitsFoldFrom (acc * 10 + (c.toNat - 48)) rest := rfl
          omega
    · rw [show digitVal c = none from by rw [digitVal, if_neg hd]]
      dsimp only
      constructor
      · intro h; cases h
      · rintro ⟨hdig, hfold, hlt⟩
        exact absurd (hdig c (List.mem_cons_self c rest)) hd

lemma parseU64_ok_iff {s : String} {n : Nat} :
    parseU64 s = Except.ok n ↔ representsU64 s n := by
  have hpos : (0 : Nat) < U64_MOD := by decide
  unfold parseU64 representsU64
  cases hs : s.data with
  | nil =>
    dsimp only
    constructor
    · intro h; cases h
    · rintro ⟨hn, ds, hne, hdig, hval, hform⟩
      rcases hform with h | h
      · exact absurd h.symm hne
      · cases h
  | cons c rest =>
    dsimp only
    by_cases hc : c = '+'
    · subst hc
      rw [if_pos rfl]
      cases rest with
      | nil =>
        rw [show (List.isEmpty ([] : List Char)) = true from rfl, if_pos rfl]
        constructor
        · intro h; cases h
        · rintro ⟨hn, ds, hne, hdig, hval, hform⟩
          rcases hform with h | h
          · have hplus : ('+' : Char) ∈ ds := h ▸ List.mem_cons_self _ _
            exact absurd (hdig _ hplus) (by decide)
          · have h2 : ([] : List Char) = ds := by injection h
            exact absurd h2.symm hne
      | cons r0 rs =>
        rw [show (List.isEmpty (r0 :: rs)) = false from rfl,
          if_neg (by simp), parseU64Core_ok_iff hpos]
        constructor
        · rintro ⟨hdig, hfold, hlt⟩
          exact ⟨hlt, r0 :: rs, by simp, hdig, hfold, Or.inr rfl⟩
        · rintro ⟨hn, ds, hne, hdig, hval, hform⟩
          rcases hform with h | h
          · have hplus : ('+' : Char) ∈ ds := h ▸ List.mem_cons_self _ _
            exact absurd (hdig _ hplus) (by decide)
          · have h2 : r0 :: rs = ds := by injection h
            rw [← h2] at hdig hval
            exact ⟨hdig, hval, hn⟩
    · rw [if_neg hc, show (List.isEmpty (c :: rest)) = false from rfl,
        if_neg (by simp), parseU64Core_ok_iff hpos]
      constructor
      · rintro ⟨hdig, hfold, hlt⟩
        exact ⟨hlt, c :: rest, by simp, hdig, hfold, Or.inl rfl⟩
      · rintro ⟨hn, ds, hne, hdig, hval, hform⟩
        rcases hform with h | h
        · rw [← h] at hdig hval
          exact ⟨hdig, hval, hn⟩
        · have h1 : c = '+' := by injection h
          exact absurd h1 hc

/-- C7: `decode_id` succeeds with `n` exactly when the segment reads as the
unsigned 64-bit integer `n`; on any other input (non-numeric or out of range)
it fails with `InvalidId` carrying the offending text and a parse-failure
reason. -/
theorem c7_decode_id_spec :
    (∀ (s : String) (n : Nat), decode_id s = Except.ok n ↔ representsU64 s n) ∧
      (∀ s : String, (∀ n, ¬ representsU64 s n) →
        ∃ reason, decode_id s = Except.error (KeyError.invalidId s reason)) := by
  have hok : ∀ (s : String) (n : Nat),
      decode_id s = Except.ok n ↔ representsU64 s n := by
    intro s n
    unfold decode_id
    cases hp : parseU64 s with
    | ok m =>
      dsimp only
      constructor
      · intro h
        have hm : m = n := by injection h
        subst hm
        exact parseU64_ok_iff.mp hp
      · intro h
        have hmn := parseU64_ok_iff.mpr h
        rw [hp] at hmn
        have hm : m = n := by injection hmn
        rw [hm]
    | error e =>
      dsimp only
      constructor
      · intro h; cases h
      · intro h
        have hmn := parseU64_ok_iff.mpr h
        rw [hp] at hmn
        cases hmn
  refine ⟨hok, fun s hnone => ?_⟩
  cases hp : parseU64 s with
  | ok m =>
    exact absurd ((hok s m).mp (by unfold decode_id; rw [hp])) (hnone m)
  | error e =>
    exact ⟨e, by unfold decode_id; rw [hp]⟩

/-- Witness for C7: "12" decodes to 12, and "ab" fails with an InvalidId
error carrying the offending text. -/
theorem c7_decode_id_spec_witness :
    decode_id ("12") = Except.ok 12 ∧
      ∃ reason, decode_id ("ab") = Except.error (KeyError.invalidId ("ab") reason) := by
  constructor
  · exact (c7_decode_id_spec.1 ("12") 12).mpr
      ⟨by rw [U64_MOD]; omega, ['1', '2'], by decide, by decide, by decide,
        Or.inl (by decide)⟩
  · refine c7_decode_id_spec.2 ("ab") ?_
    rintro n ⟨hn, ds, hne, hdig, hval, hform⟩
    have hdata : String.data ("ab") = ['a', 'b'] := rfl
    rcases hform with h | h <;> rw [hdata] at h
    · have ha : ('a' : Char) ∈ ds := h ▸ List.mem_cons_self _ _
      exact absurd (hdig _ ha) (by decide)
    · have h1 : ('a' : Char) = '+' := by injection h
      exact absurd h1 (by decide)

/-- The `impl kvapi::Key for String` of key.rs: prefix constant. -/
def String_PREFIX : String := ""

/-- The `impl kvapi::Key for String` of key.rs: `to_string_key` clones the
string. -/
def String_to_string_key (k : String) : String := k

/-- The `impl kvapi::Key for String` of key.rs: `from_str_key` always
succeeds with the input string. -/
def String_from_str_key (s : String) : Except KeyError String := Except.ok s

/-- C9: the String key variant is the identity mapping with empty prefix and
no failure mode, so decoding an encoded key returns it unchanged. -/
theorem c9_string_key_identity :
    String_PREFIX = "" ∧
      (∀ k : String, String_to_string_key k = k) ∧
      (∀ s : String, String_from_str_key s = Except.ok s) ∧
      (∀ k : String, String_from_str_key (String_to_string_key k) = Except.ok k) :=
  ⟨rfl, fun _ => rfl, fun _ => rfl, fun _ => rfl⟩

/-- The `UpsertKVReq` of common_meta_types. The key is a string; the types of
the write condition (`MatchSeq`), the value operation and the value metadata
are not under src/ and are kept as type parameters, since the MetaNode impl
only moves them around. -/
structure UpsertKVReq (S V M : Type) where
  key : String
  seq : S
  value : V
  value_meta : Option M
deriving DecidableEq

/-- The `UpsertKV` command payload of common_meta_types, with the same four
fields as `UpsertKVReq`. -/
structure UpsertKV (S V M : Type) where
  key : String
  seq : S
  value : V
  value_meta : Option M
deriving DecidableEq

/-- The `Cmd` of common_meta_types, restricted to the two variants the
MetaNode KVApi impl constructs (`UpsertKV` and `Transaction`); `T` is the
transaction-request type. -/
inductive Cmd (S V M T : Type) where
  | upsertKV (u : UpsertKV S V M)
  | transaction (t : T)
deriving DecidableEq

/-- The `LogEntry` of common_meta_types: optional transaction id, optional
time in milliseconds, and a command. The transaction-id type is not under
src/ and is immaterial here (the impl always passes `None`), so `Nat` stands
in for it. -/
structure LogEntry (S V M T : Type) where
  txid : Option Nat
  time_ms : Option Nat
  cmd : Cmd S V M T
deriving DecidableEq

/-- Modelled from the spec: `AppliedState` is "a tagged union matching the
command kind". The MetaNode impl matches only the `KV` and `TxnReply` tags,
so every remaining tag of the real enum is collapsed into `other`. -/
inductive AppliedState (RK RT A : Type) where
  | KV (x : RK)
  | txnReply (x : RT)
  | other (a : A)
deriving DecidableEq

/-- Outcome of a MetaNode write operation: a reply, a propagated lower-layer
error, or `fatal` for the `unreachable!` panic on an applied-state tag
mismatch (a programming error, distinct from every recoverable error). -/
inductive MetaResult (E R : Type) where
  | ok (r : R)
  | err (e : E)
  | fatal
deriving DecidableEq

/-- The log entry built by `upsert_kv`: empty transaction id, empty
timestamp, and an `UpsertKV` command carrying the request's fields
unchanged. -/
def upsertLogEntry {S V M T : Type} (act : UpsertKVReq S V M) :
    LogEntry S V M T :=
  { txid := none, time_ms := none,
    cmd := Cmd.upsertKV
      { key := act.key, seq := act.seq, value := act.value,
        value_meta := act.value_meta } }

/-- The log entry built by `transaction`: empty transaction id, empty
timestamp, and a `Transaction` command carrying the request unchanged. -/
def txnLogEntry {S V M T : Type} (txn : T) : LogEntry S V M T :=
  { txid := none, time_ms := none, cmd := Cmd.transaction txn }

/-- `MetaNode::upsert_kv`: wrap the request in a log entry, submit it via
`write`, and unwrap the `KV`-tagged applied state; any other tag hits
`unreachable!`. `write` (raft submission, not under src/) is a parameter. -/
def upsert_kv {S V M T RK RT A E : Type}
    (write : LogEntry S V M T → Except E (AppliedState RK RT A))
    (act : UpsertKVReq S V M) : MetaResult E RK :=
  match write (upsertLogEntry act) with
  | Except.ok (AppliedState.KV x) => MetaResult.ok x
  | Except.ok _ => MetaResult.fatal
  | Except.error e => MetaResult.err e

/-- `MetaNode::transaction`: wrap the request in a log entry, submit it via
`write`, and unwrap the `TxnReply`-tagged applied state; any other tag hits
`unreachable!`. -/
def transaction {S V M T RK RT A E : Type}
    (write : LogEntry S V M T → Except E (AppliedState RK RT A))
    (txn : T) : MetaResult E RT :=
  match write (txnLogEntry txn) with
  | Except.ok (AppliedState.txnReply x) => MetaResult.ok x
  | Except.ok _ => MetaResult.fatal
  | Except.error e => MetaResult.err e

/-- C5: each write operation submits exactly one log entry with empty
transaction id and timestamp whose command carries the request unchanged
(the result depends on `write` only at that entry), returns the payload when
the applied-state tag matches, propagates lower-layer errors, and treats any
non-matching tag as the fatal outcome, which is distinct from every
recoverable error. -/
theorem c5_write_path (S V M T RK RT A E : Type)
    (write : LogEntry S V M T → Except E (AppliedState RK RT A))
    (act : UpsertKVReq S V M) (txn : T) :
    ((upsertLogEntry act : LogEntry S V M T).txid = none ∧
      (upsertLogEntry act : LogEntry S V M T).time_ms = none ∧
      (upsertLogEntry act : LogEntry S V M T).cmd =
        Cmd.upsertKV
          { key := act.key, seq := act.seq, value := act.value,
            value_meta := act.value_meta } ∧
      (txnLogEntry txn : LogEntry S V M T).txid = none ∧
      (txnLogEntry txn : LogEntry S V M T).time_ms = none ∧
      (txnLogEntry txn : LogEntry S V M T).cmd = Cmd.transaction txn) ∧
    (∀ x, write (upsertLogEntry act) = Except.ok (AppliedState.KV x) →
        upsert_kv write act = MetaResult.ok x) ∧
    (∀ a, write (upsertLogEntry act) = Except.ok a →
        (∀ x, a ≠ AppliedState.KV x) →
        upsert_kv write act = MetaResult.fatal) ∧
    (∀ e, write (upsertLogEntry act) = Except.error e →
        upsert_kv write act = MetaResult.err e) ∧
    (∀ write2 : LogEntry S V M T → Except E (AppliedState RK RT A),
        write2 (upsertLogEntry act) = write (upsertLogEntry act) →
        upsert_kv write2 act = upsert_kv write act) ∧
    (∀ x, write (txnLogEntry txn) = Except.ok (AppliedState.txnReply x) →
        transaction write txn = MetaResult.ok x) ∧
    (∀ a, write (txnLogEntry txn) = Except.ok a →
        (∀ x, a ≠ AppliedState.txnReply x) →
        transaction write txn = MetaResult.fatal) ∧
    (∀ e, write (txnLogEntry txn) = Except.error e →
        transaction write txn = MetaResult.err e) ∧
    (∀ write2 : LogEntry S V M T → Except E (AppliedState RK RT A),
        write2 (txnLogEntry txn) = write (txnLogEntry txn) →
        transaction write2 txn = transaction write txn) ∧
    (∀ e : E, (MetaResult.fatal : MetaResult E RK) ≠ MetaResult.err e ∧
        (MetaResult.fatal : MetaResult E RT) ≠ MetaResult.err e) := by
  refine ⟨?_, ?_, ?_, ?_, ?_, ?_, ?_, ?_, ?_, ?_⟩
  · exact ⟨rfl, rfl, rfl, rfl, rfl, rfl⟩
  · intro x h
    unfold upsert_kv
    rw [h]
  · intro a h hne
    unfold upsert_kv
    rw [h]
    cases a with
    | KV z => exact absurd rfl (hne z)
    | txnReply z => rfl
    | other y => rfl
  · intro e h
    unfold upsert_kv
    rw [h]
  · intro write2 h
    unfold upsert_kv
    rw [h]
  · intro x h
    unfold transaction
    rw [h]
  · intro a h hne
    unfold transaction
    rw [h]
    cases a with
    | KV z => rfl
    | txnReply z => exact absurd rfl (hne z)
    | other y => rfl
  · intro e h
    unfold transaction
    rw [h]
  · intro write2 h
    unfold transaction
    rw [h]
  · intro e
    exact ⟨fun h => MetaResult.noConfusion h, fun h => MetaResult.noConfusion h⟩

/-- Witness for C5 at concrete instantiations: a matching tag yields the
payload, a mismatching tag is fatal, and a lower-layer error propagates. -/
theorem c5_write_path_witness :
    upsert_kv
        (fun _ : LogEntry Nat Nat Nat Nat =>
          (Except.ok (AppliedState.KV 5) : Except Nat (AppliedState Nat Nat Nat)))
        ⟨"k", 1, 2, none⟩ = MetaResult.ok 5 ∧
      upsert_kv
        (fun _ : LogEntry Nat Nat Nat Nat =>
          (Except.ok (AppliedState.txnReply 3) : Except Nat (AppliedState Nat Nat Nat)))
        ⟨"k", 1, 2, none⟩ = MetaResult.fatal ∧
      upsert_kv
        (fun _ : LogEntry Nat Nat Nat Nat =>
          (Except.error 9 : Except Nat (AppliedState Nat Nat Nat)))
        ⟨"k", 1, 2, none⟩ = MetaResult.err 9 ∧
      transaction
        (fun _ : LogEntry Nat Nat Nat Nat =>
          (Except.ok (AppliedState.txnReply 7) : Except Nat (AppliedState Nat Nat Nat)))
        4 = MetaResult.ok 7 :=
  ⟨(c5_write_path Nat Nat Nat Nat Nat Nat Nat Nat _ ⟨"k", 1, 2, none⟩ 4).2.1 5 rfl,
    (c5_write_path Nat Nat Nat Nat Nat Nat Nat Nat _ ⟨"k", 1, 2, none⟩ 4).2.2.1
      (AppliedState.txnReply 3) rfl (fun x h => AppliedState.noConfusion h),
    (c5_write_path Nat Nat Nat Nat Nat Nat Nat Nat _ ⟨"k", 1, 2, none⟩ 4).2.2.2.1 9 rfl,
    (c5_write_path Nat Nat Nat Nat Nat Nat Nat Nat _ ⟨"k", 1, 2, none⟩ 4).2.2.2.2.2.1
      7 rfl⟩

/-- Modelled from the spec: a stored value together with its sequence
number. -/
structure SeqV where
  seq : Nat
  data : List Nat
deriving DecidableEq, Repr

/-- The local state-machine replica: a map from flat string key to stored
value, as an association list. -/
abbrev SMState := List (String × SeqV)

/-- Modelled from the spec: `consistent_read(GetKVReq)` answers a single-key
read directly from the local replica. -/
def consistentReadGet (sm : SMState) (key : String) : Option SeqV :=
  (sm.find? (fun kv => kv.1 == key)).map (fun kv => kv.2)

/-- Modelled from the spec: `consistent_read(MGetKVReq)` answers a multi-key
read directly from the local replica, in input order. -/
def consistentReadMGet (sm : SMState) (keys : List String) : List (Option SeqV) :=
  keys.map (consistentReadGet sm)

/-- Modelled from the spec: `consistent_read(ListKVReq)` returns the stored
pairs whose key starts with the given text, from the local replica. -/
def consistentReadList (sm : SMState) (p : String) : List (String × SeqV) :=
  sm.filter (fun kv => p.isPrefixOf kv.1)

/-- Concrete instantiation of the log-entry type for the node model. -/
abbrev LogEntryC := LogEntry Nat Nat Nat Nat

/-- Concrete instantiation of the applied-state type for the node model. -/
abbrev AppliedStateC := AppliedState Nat Nat Nat

/-- A node: its local state-machine replica and the log entries it has
submitted for replication. -/
structure NodeState where
  sm : SMState
  log : List LogEntryC
deriving DecidableEq

/-- Reply of one node operation. -/
inductive NodeReply where
  | get (r : Option SeqV)
  | mget (r : List (Option SeqV))
  | list (r : List (String × SeqV))
  | applied (a : AppliedStateC)
deriving DecidableEq

/-- One KVApi operation on the node. -/
inductive NodeOp where
  | getKV (key : String)
  | mgetKV (keys : List String)
  | prefixListKV (p : String)
  | upsertKV (act : UpsertKVReq Nat Nat Nat)
  | txn (t : Nat)
deriving DecidableEq

/-- Dispatch of the five KVApi operations of the MetaNode impl: the three
read operations answer from the local replica via `consistent_read` and
touch nothing; the two write operations wrap the request as a log entry and
submit it (`apply`, a parameter, stands for the consensus log plus
state-machine application, which is not under src/). -/
def runOp (apply : LogEntryC → SMState → AppliedStateC × SMState) :
    NodeOp → NodeState → NodeReply × NodeState
  | NodeOp.getKV key, st => (NodeReply.get (consistentReadGet st.sm key), st)
  | NodeOp.mgetKV keys, st => (NodeReply.mget (consistentReadMGet st.sm keys), st)
  | NodeOp.prefixListKV p, st => (NodeReply.list (consistentReadList st.sm p), st)
  | NodeOp.upsertKV act, st =>
    (NodeReply.applied (apply (upsertLogEntry act) st.sm).1,
      ⟨(apply (upsertLogEntry act) st.sm).2, st.log ++ [upsertLogEntry act]⟩)
  | NodeOp.txn t, st =>
    (NodeReply.applied (apply (txnLogEntry t) st.sm).1,
      ⟨(apply (txnLogEntry t) st.sm).2, st.log ++ [txnLogEntry t]⟩)

/-- C8: get, multi-get and prefix-list are pure reads: whatever the log and
state-machine application does, they are answered solely from the local
replica via `consistent_read`, submit no log entry and leave the node state
(replica and log) unchanged — while the write operations do append to the
log. -/
theorem c8_reads_pure (apply : LogEntryC → SMState → AppliedStateC × SMState)
    (st : NodeState) (key : String) (keys : List String) (p : String)
    (act : UpsertKVReq Nat Nat Nat) :
    runOp apply (NodeOp.getKV key) st =
        (NodeReply.get (consistentReadGet st.sm key), st) ∧
      runOp apply (NodeOp.mgetKV keys) st =
        (NodeReply.mget (consistentReadMGet st.sm keys), st) ∧
      runOp apply (NodeOp.prefixListKV p) st =
        (NodeReply.list (consistentReadList st.sm p), st) ∧
      (runOp apply (NodeOp.upsertKV act) st).2.log =
        st.log ++ [upsertLogEntry act] :=
  ⟨rfl, rfl, rfl, rfl⟩

/-- The `SerializedKeysColumnIter` of aggregator_keys_iter.rs: a clone of the
string column, held as its value bytes and its offsets (`i64`, one more
entry than there are rows). -/
structure SerializedKeysColumnIter where
  data : List Nat
  offsets : List Int
deriving DecidableEq, Repr

/-- The `SerializedKeysIter` state: borrowed data and offsets plus the
cursor `pos`. -/
structure SerializedKeysIter where
  data : List Nat
  offsets : List Int
  pos : Nat
deriving DecidableEq, Repr

/-- The `iter` method of the `KeysColumnIter` impl: start at position 0 over
the column's values and offsets. -/
def SerializedKeysColumnIter.iter (c : SerializedKeysColumnIter) :
    SerializedKeysIter :=
  { pos := 0, data := c.data, offsets := c.offsets }

/-- Rust `i64 as usize` on a 64-bit target: the value modulo 2^64. -/
def i64AsUsize (i : Int) : Nat := (i % (2 : Int) ^ 64).toNat

/-- Rust slice indexing `&data[a..b]`: defined when `a ≤ b ≤ data.len()`,
a panic otherwise. -/
def listSlice (data : List Nat) (a b : Nat) : Option (List Nat) :=
  if a ≤ b ∧ b ≤ data.length then some ((data.drop a).take (b - a)) else none

/-- Result of one `next()` call: `yield` is `Some(slice)` together with the
iterator state after the call, `done` is `None`, `panicked` marks an
indexing or slicing panic. -/
inductive StepResult where
  | yield (bytes : List Nat) (it : SerializedKeysIter)
  | done (it : SerializedKeysIter)
  | panicked
deriving DecidableEq, Repr

/-- `SerializedKeysIter::next`: if `pos < offsets.len() - 1`, return
`Some(&data[offsets[pos] as usize .. offsets[pos + 1] as usize])` — without
changing `pos` — otherwise `None`. -/
def SerializedKeysIter.next (it : SerializedKeysIter) : StepResult :=
  if it.pos < it.offsets.length - 1 then
    match it.offsets.get? it.pos, it.offsets.get? (it.pos + 1) with
    | some o, some o1 =>
      match listSlice it.data (i64AsUsize o) (i64AsUsize o1) with
      | some s => StepResult.yield s it
      | none => StepResult.panicked
    | _, _ => StepResult.panicked
  else StepResult.done it

/-- Repeated calls to `next`, following the iterator state each `yield`
returns: `runIter n` performs `n + 1` calls unless the iterator finishes or
panics first, and returns the outcome of the last call. -/
def runIter : Nat → SerializedKeysIter → StepResult
  | 0, it => SerializedKeysIter.next it
  | n + 1, it =>
    match SerializedKeysIter.next it with
    | StepResult.yield _ it2 => runIter n it2
    | r => r

/-- C10: over a string column with at least one row (an entry at offset
index 1) whose offsets are in `i64` range, ordered, and within the data, the
iterator yields `Some` of the first key's bytes on every call, never
advances its position, and never returns `None`. -/
theorem c10_serialized_keys_iter_stuck
    (data : List Nat) (offsets : List Int) (o0 o1 : Int)
    (h0 : offsets.get? 0 = some o0) (h1 : offsets.get? 1 = some o1)
    (hnn : 0 ≤ o0) (hle : o0 ≤ o1) (hmax : o1 < 2 ^ 63)
    (hlen : o1.toNat ≤ data.length) :
    ∀ n : Nat,
      runIter n (SerializedKeysColumnIter.iter ⟨data, offsets⟩) =
        StepResult.yield ((data.drop o0.toNat).take (o1.toNat - o0.toNat))
          (SerializedKeysColumnIter.iter ⟨data, offsets⟩) := by
  have hlen2 : 1 < offsets.length := by
    have := List.get?_eq_some.mp h1
    exact this.1
  have hmod : ∀ i : Int, 0 ≤ i → i < 2 ^ 63 → i64AsUsize i = i.toNat := by
    intro i hi hi2
    unfold i64AsUsize
    rw [Int.emod_eq_of_lt hi (by norm_num; omega)]
  have hstep :
      SerializedKeysIter.next (SerializedKeysColumnIter.iter ⟨data, offsets⟩) =
        StepResult.yield ((data.drop o0.toNat).take (o1.toNat - o0.toNat))
          (SerializedKeysColumnIter.iter ⟨data, offsets⟩) := by
    unfold SerializedKeysColumnIter.iter SerializedKeysIter.next
    dsimp only
    rw [if_pos (by omega), h0, h1]
    dsimp only
    rw [hmod o0 hnn (by omega), hmod o1 (by omega) hmax]
    rw [show listSlice data o0.toNat o1.toNat =
        some ((data.drop o0.toNat).take (o1.toNat - o0.toNat)) from by
      unfold listSlice
      rw [if_pos (by constructor <;> omega)]]
  intro n
  induction n with
  | zero => exact hstep
  | succ n ih =>
    rw [runIter, hstep]
    dsimp only
    exact ih

/-- Witness for C10 on a three-byte column with rows of widths 1 and 2: the
third call still yields the first row's single byte and the initial iterator
state. -/
theorem c10_serialized_keys_iter_stuck_witness :
    runIter 2 (SerializedKeysColumnIter.iter ⟨[10, 20, 30], [0, 1, 3]⟩) =
      StepResult.yield [10]
        (SerializedKeysColumnIter.iter ⟨[10, 20, 30], [0, 1, 3]⟩) := by
  have h := c10_serialized_keys_iter_stuck [10, 20, 30] [0, 1, 3] 0 1 rfl rfl
    (by decide) (by decide) (by norm_num) (by decide) 2
  simpa using h

end Databend
